import Mathlib

/-!
Shallow embedding of the authoritative Tetris server (`src/server.js`) and
verification of its specification claims.

Board cells are `Option String`: `none` models the JS value `0` (empty) and
`some c` models a stored color string (occupied).  Coordinates of the active
piece are integers, mirroring the unbounded JS numbers; board indices that
the code only ever uses after an explicit bounds check are accessed with
`getD` defaults that are never reached under those checks.
-/

namespace Tetris

/-- `ROWS` constant from server.js (board height). -/
def ROWS : Nat := 20

/-- `COLS` constant from server.js (board width). -/
def COLS : Nat := 10

/-- A board cell: `none` is the empty cell (`0` in JS), `some c` a color. -/
abbrev Cell := Option String

/-- A board row (length `COLS` in well-formed boards). -/
abbrev Row := List Cell

/-- A board: list of rows, index 0 at the top (length `ROWS` when well-formed). -/
abbrev Board := List Row

/-- A piece shape matrix of 0/1 entries (`shape[y][x]` in JS;
occupancy is JS truthiness, i.e. any non-zero entry). -/
abbrev Shape := List (List Nat)

/-- A piece: shape plus color, as in the `TETROMINOES` catalog. -/
structure Piece where
  shape : Shape
  color : String
  deriving DecidableEq, Repr

/-- `createEmptyBoard` helper: one empty row (`Array(COLS).fill(0)`). -/
def emptyRow : Row := List.replicate COLS none

/-- `createEmptyBoard` from server.js. -/
def createEmptyBoard : Board := List.replicate ROWS emptyRow

/-- Reads `board[r]` (rows are only read at indices `0 ≤ r < ROWS`
by the guarded code paths). -/
def rowAt (b : Board) (r : Nat) : Row := b.getD r []

/-- JS truthiness of `state.board[boardY][boardX]`: the cell holds a color. -/
def isOccupied (b : Board) (bY bX : Int) : Bool :=
  ((b.getD bY.toNat []).getD bX.toNat none).isSome

/-- The per-cell check inside `isValidMove`: bounds first, then occupancy,
with rows above (`boardY < 0`) exempt from the occupancy check. -/
def cellFree (b : Board) (bX bY : Int) : Bool :=
  if bX < 0 || (COLS : Int) ≤ bX || (ROWS : Int) ≤ bY then false
  else if 0 ≤ bY && isOccupied b bY bX then false
  else true

/-- `isValidMove(state, newX, newY, pieceShape)` from server.js: every
occupied shape cell must map to a free in-bounds board position. -/
def isValidMove (b : Board) (shape : Shape) (newX newY : Int) : Bool :=
  (List.range shape.length).all fun y =>
    (List.range (shape.getD y []).length).all fun x =>
      if (shape.getD y []).getD x 0 ≠ 0 then
        cellFree b (newX + x) (newY + y)
      else true

/-- `rotatePiece(piece)` from server.js: 90° clockwise rotation.  The JS code
allocates a `cols × rows` zero matrix and fills `rotated[col][rows-1-row] :=
shape[row][col]`; since every target index `(c, j)` with `j = rows-1-row`
is written exactly once, the filled matrix is the map below. -/
def rotatePiece (p : Piece) : Piece :=
  { shape :=
      (List.range (p.shape.getD 0 []).length).map fun c =>
        (List.range p.shape.length).map fun j =>
          (p.shape.getD (p.shape.length - 1 - j) []).getD c 0,
    color := p.color }

/-- The O piece from the `TETROMINOES` catalog. -/
def pieceO : Piece := { shape := [[1, 1], [1, 1]], color := "#FFFF00" }

/-- The T piece from the `TETROMINOES` catalog. -/
def pieceT : Piece := { shape := [[0, 1, 0], [1, 1, 1], [0, 0, 0]], color := "#800080" }

/-- The I piece from the `TETROMINOES` catalog. -/
def pieceI : Piece :=
  { shape := [[0, 0, 0, 0], [1, 1, 1, 1], [0, 0, 0, 0], [0, 0, 0, 0]], color := "#00FFFF" }

/-- Per-player game state, as built by `createInitialState` in server.js. -/
structure PlayerState where
  board : Board
  currentPiece : Piece
  currentX : Int
  currentY : Int
  score : Nat
  linesCleared : Nat
  gameOver : Bool
  deriving DecidableEq, Repr

/-- `isRowComplete` test inside `checkForCompletedLines`:
`state.board[row].every(cell => cell !== 0)`. -/
def isRowComplete (r : Row) : Bool := r.all fun c => c.isSome

/-- The in-place shift performed on a completed row `r` inside
`checkForCompletedLines`: rows `1..r` each receive the row above
(the JS loop copies downward from index `r` to `1`, reading the
not-yet-overwritten old values) and row 0 becomes empty. -/
def shiftAt (b : Board) (r : Nat) : Board :=
  emptyRow :: (b.take r ++ b.drop (r + 1))

/-- The inner re-examination loop of `checkForCompletedLines` at a fixed row
index `r` (the JS `row++` after a shift followed by the loop's `row--` means
the same index is examined again): clear row `r` while it is complete.  The
fuel argument bounds the iterations; each shift at index `r` pulls the next
row from above, so after at most `r + 2` iterations row `r` is an inserted
empty row and the guard fails — callers pass fuel `r + 2`, which the
equivalence theorems below show is never exhausted. -/
def clearAt : Nat → Board → Nat → Board × Nat
  | 0, b, _ => (b, 0)
  | fuel + 1, b, r =>
    if isRowComplete (rowAt b r) then
      let p := clearAt fuel (shiftAt b r) r
      (p.1, p.2 + 1)
    else (b, 0)

/-- The outer bottom-to-top scan of `checkForCompletedLines`: argument `n`
means indices `n-1, n-2, ..., 0` remain to be examined. -/
def clearScan : Nat → Board → Board × Nat
  | 0, b => (b, 0)
  | r + 1, b =>
    let p := clearAt (r + 2) b r
    let q := clearScan r p.1
    (q.1, p.2 + q.2)

/-- `checkForCompletedLines(state)` from server.js, acting on the board and
returning the cleared-line count. -/
def checkForCompletedLines (b : Board) : Board × Nat := clearScan ROWS b

/-- Writes one cell of the locking piece into the board
(`state.board[boardY][state.currentX + col] = color`); the write only
happens at indices that exist (the source locks only validly placed
pieces, whose occupied cells are in bounds whenever `boardY ≥ 0`). -/
def setCell (b : Board) (bY bX : Int) (color : String) : Board :=
  b.mapIdx fun r row =>
    if (r : Int) = bY then row.mapIdx (fun c v => if (c : Int) = bX then some color else v)
    else row

/-- The piece-committing loop at the start of `processLock`: every occupied
shape cell with `boardY = currentY + row ≥ 0` is stored into the board as the
piece color (cells above the board are skipped). -/
def lockBoard (b : Board) (shape : Shape) (x y : Int) (color : String) : Board :=
  (List.range shape.length).foldl
    (fun acc row =>
      (List.range (shape.getD row []).length).foldl
        (fun acc2 col =>
          if (shape.getD row []).getD col 0 ≠ 0 ∧ 0 ≤ y + row then
            setCell acc2 (y + row) (x + col) color
          else acc2)
        acc)
    b

/-- The `scoreValues` lookup in `processLock`:
`scoreValues[clearedLines] || clearedLines * 100`. -/
def scoreValue (n : Nat) : Nat :=
  if n = 1 then 100 else if n = 2 then 300 else if n = 3 then 500
  else if n = 4 then 800 else n * 100

/-- Spawn abscissa used by `createInitialState` and `processLock`:
`Math.floor(COLS/2) - Math.floor(shape[0].length/2)`. -/
def spawnX (shape : Shape) : Int := (COLS / 2 : Nat) - ((shape.getD 0 []).length / 2 : Nat)

/-- Result of `processLock`: the updated state, the cleared-line count and
the number of garbage lines requested for the opponent (0 when none). -/
structure LockResult where
  state : PlayerState
  cleared : Nat
  garbage : Nat
  deriving DecidableEq, Repr

/-- `processLock(ws, state)` from server.js.  The freshly drawn random piece
(`getRandomPiece()`) is passed in as `next`.  Commits the piece, clears
completed lines, updates score and line count, computes the garbage request
(`clearedLines - 1`, only when `clearedLines > 1`), spawns `next` at the
top, and sets `gameOver` when the spawn position is invalid. -/
def processLock (s : PlayerState) (next : Piece) : LockResult :=
  let b1 := lockBoard s.board s.currentPiece.shape s.currentX s.currentY s.currentPiece.color
  let pr := checkForCompletedLines b1
  let cleared := pr.2
  let s1 : PlayerState :=
    { s with
      board := pr.1
      linesCleared := if 0 < cleared then s.linesCleared + cleared else s.linesCleared
      score := if 0 < cleared then s.score + scoreValue cleared else s.score
      currentPiece := next
      currentX := spawnX next.shape
      currentY := 0 }
  let s2 := if isValidMove s1.board next.shape s1.currentX s1.currentY then s1
            else { s1 with gameOver := true }
  { state := s2, cleared := cleared,
    garbage := if 1 < cleared then cleared - 1 else 0 }

/-- Move directions handled by `processMove`. -/
inductive Dir | left | right | down
  deriving DecidableEq, Repr

/-- `processMove(ws, state, direction)` from server.js: compute the one-cell
delta; if valid, apply it (the commented-out auto-lock there does nothing);
otherwise, for a rejected down move whose two-cells-down position is also
invalid, the handler locks the piece (`processLock`); otherwise no change. -/
def processMove (s : PlayerState) (dir : Dir) (next : Piece) : PlayerState :=
  let newX := match dir with | .left => s.currentX - 1 | .right => s.currentX + 1 | .down => s.currentX
  let newY := match dir with | .down => s.currentY + 1 | _ => s.currentY
  if isValidMove s.board s.currentPiece.shape newX newY then
    { s with currentX := newX, currentY := newY }
  else if dir = .down ∧ ¬ isValidMove s.board s.currentPiece.shape newX (newY + 1) then
    (processLock s next).state
  else s

/-- `processRotate(ws, state)` from server.js: adopt the rotated piece only
when it is valid at the current position. -/
def processRotate (s : PlayerState) : PlayerState :=
  let rp := rotatePiece s.currentPiece
  if isValidMove s.board rp.shape s.currentX s.currentY then { s with currentPiece := rp }
  else s

/-- The descent loop of `processDropPiece`
(`while (isValidMove(state, x, newY + 1)) newY++`), fuel-bounded: from any
`y ≥ 0` a piece with an occupied cell allows at most `ROWS - 1` further valid
descents, so fuel `ROWS + 1` is never exhausted on reachable states. -/
def dropY (b : Board) (shape : Shape) (x : Int) : Nat → Int → Int
  | 0, y => y
  | fuel + 1, y => if isValidMove b shape x (y + 1) then dropY b shape x fuel (y + 1) else y

/-- `processDropPiece(ws, state)` from server.js: descend to the lowest valid
position (a no-op when already at the bottom) and then lock. -/
def processDropPiece (s : PlayerState) (next : Piece) : LockResult :=
  processLock
    { s with currentY := dropY s.board s.currentPiece.shape s.currentX (ROWS + 1) s.currentY }
    next

/-- The upward probe in `addGarbageLines`
(`while (newY > 0 && !isValidMove(...)) newY--`), fuel-bounded by the
starting ordinate: each pass decrements `y` by one and the loop stops at
`y ≤ 0`, so fuel `y.toNat` is exact. -/
def probeUp (b : Board) (shape : Shape) (x : Int) : Nat → Int → Int
  | 0, y => y
  | fuel + 1, y =>
    if 0 < y ∧ ¬ isValidMove b shape x y then probeUp b shape x fuel (y - 1) else y

/-- One garbage row: gray `#808080` everywhere except one gap column
(`Math.floor(Math.random() * COLS)`, passed in as `gap`). -/
def garbageRow (gap : Nat) : Row :=
  (List.range COLS).map fun c => if c = gap then none else some "#808080"

/-- `addGarbageLines(state, numLines)` from server.js.  The random gap
positions (one per inserted row, row `ROWS-1-i` using `gaps[i]`) come in as
`gaps`.  Caps the insertion at `ROWS - 4`, shifts the surviving rows up
(the JS copy loop reads only indices it has not yet overwritten, so every
read sees the original board), writes the garbage rows at the bottom, then
revalidates the active piece, probing upward and flagging game over if no
valid ordinate exists. -/
def addGarbageLines (s : PlayerState) (numLines : Nat) (gaps : List Nat) : PlayerState :=
  let linesToAdd := min numLines (ROWS - 4)
  if linesToAdd = 0 then s
  else
    let b1 : Board :=
      (List.range ROWS).map fun r =>
        if r < ROWS - linesToAdd then s.board.getD (r + linesToAdd) []
        else garbageRow (gaps.getD (ROWS - 1 - r) 0)
    let s1 := { s with board := b1 }
    if isValidMove s1.board s1.currentPiece.shape s1.currentX s1.currentY then s1
    else
      let newY := probeUp s1.board s1.currentPiece.shape s1.currentX s1.currentY.toNat s1.currentY
      if isValidMove s1.board s1.currentPiece.shape s1.currentX newY then
        { s1 with currentY := newY }
      else { s1 with gameOver := true }

/-- The game actions dispatched by `processAction` in server.js. -/
inductive Action
  | moveLeft | moveRight | moveDown | rotate | dropPiece | lock
  deriving DecidableEq, Repr

/-- `processAction(ws, action)` from server.js, restricted to the per-player
state transformation (messages and opponent propagation are modelled
separately); `next` stands for the `getRandomPiece()` draw consumed if a
lock occurs during the action. -/
def processAction (s : PlayerState) (a : Action) (next : Piece) : PlayerState :=
  match a with
  | .moveLeft => processMove s .left next
  | .moveRight => processMove s .right next
  | .moveDown => processMove s .down next
  | .rotate => processRotate s
  | .dropPiece => (processDropPiece s next).state
  | .lock => (processLock s next).state

/-! ## Helper lemmas -/

theorem getD_range_map {α : Type} (f : Nat → α) (n i : Nat) (d : α) (h : i < n) :
    ((List.range n).map f).getD i d = f i := by
  rw [List.getD_eq_getElem?_getD, List.getElem?_map, List.getElem?_range h]
  rfl

theorem cellFree_iff (b : Board) (bX bY : Int) :
    cellFree b bX bY = true ↔
      0 ≤ bX ∧ bX < (COLS : Int) ∧ bY < (ROWS : Int) ∧
        (0 ≤ bY → (b.getD bY.toNat []).getD bX.toNat none = none) := by
  unfold cellFree
  by_cases h1 : (bX < 0 || (COLS : Int) ≤ bX || (ROWS : Int) ≤ bY) = true
  · rw [if_pos h1]
    simp only [Bool.or_eq_true, decide_eq_true_eq] at h1
    constructor
    · intro h; exact absurd h (by simp)
    · rintro ⟨ha, hb', hc, -⟩; omega
  · rw [if_neg h1]
    simp only [Bool.or_eq_true, decide_eq_true_eq, not_or, not_lt, not_le] at h1
    obtain ⟨⟨ha, hb'⟩, hc⟩ := h1
    by_cases h2 : (decide (0 ≤ bY) && isOccupied b bY bX) = true
    · rw [if_pos h2]
      simp only [Bool.and_eq_true, decide_eq_true_eq, isOccupied,
        Option.isSome_iff_exists] at h2
      obtain ⟨hy, v, hv⟩ := h2
      constructor
      · intro h; exact absurd h (by simp)
      · rintro ⟨-, -, -, hfree⟩
        rw [hfree hy] at hv
        exact absurd hv (by simp)
    · rw [if_neg h2]
      simp only [Bool.and_eq_true, decide_eq_true_eq, not_and, isOccupied] at h2
      refine ⟨fun _ => ⟨ha, hb', hc, fun hy => ?_⟩, fun _ => rfl⟩
      exact Option.not_isSome_iff_eq_none.mp (h2 hy)

/-! ## C4: characterization of `isValidMove` -/

/-- C4: `isValidMove` returns true exactly when every occupied shape cell
`(r, c)` maps to a board position `(x+c, y+r)` with `0 ≤ x+c < COLS` and
`y+r < ROWS`, and — whenever `y+r ≥ 0` — an unoccupied board cell; occupied
shape cells with `y+r < 0` are exempt from the occupancy check, and any
bounds violation makes the check fail regardless of board occupancy. -/
theorem isValidMove_spec (b : Board) (shape : Shape) (x y : Int) :
    isValidMove b shape x y = true ↔
      ∀ r, r < shape.length → ∀ c, c < (shape.getD r []).length →
        (shape.getD r []).getD c 0 ≠ 0 →
          0 ≤ x + (c : Int) ∧ x + (c : Int) < (COLS : Int) ∧
          y + (r : Int) < (ROWS : Int) ∧
          (0 ≤ y + (r : Int) →
            (b.getD (y + (r : Int)).toNat []).getD (x + (c : Int)).toNat none = none) := by
  unfold isValidMove
  simp only [List.all_eq_true, List.mem_range]
  constructor
  · intro h r hr c hc hocc
    have := h r hr c hc
    rw [if_pos hocc] at this
    exact (cellFree_iff b (x + c) (y + r)).mp this
  · intro h r hr c hc
    by_cases hocc : (shape.getD r []).getD c 0 ≠ 0
    · rw [if_pos hocc]
      exact (cellFree_iff b (x + c) (y + r)).mpr (h r hr c hc hocc)
    · rw [if_neg hocc]

/-! ## C7: rotation -/

/-- A shape that is a proper `R × C` matrix. -/
def Proper (s : Shape) (R C : Nat) : Prop :=
  s.length = R ∧ ∀ i, i < R → (s.getD i []).length = C

theorem shape_ext2 (A B : Shape) (hlen : A.length = B.length)
    (hrow : ∀ i, i < A.length → (A.getD i []).length = (B.getD i []).length)
    (hcell : ∀ i j, i < A.length → j < (A.getD i []).length →
      (A.getD i []).getD j 0 = (B.getD i []).getD j 0) : A = B := by
  apply List.ext_getElem hlen
  intro i h1 h2
  have hrl := hrow i h1
  rw [List.getD_eq_getElem A [] h1, List.getD_eq_getElem B [] h2] at hrl
  apply List.ext_getElem hrl
  intro j hj1 hj2
  have hc := hcell i j h1 (by rwa [List.getD_eq_getElem A [] h1])
  rw [List.getD_eq_getElem A [] h1, List.getD_eq_getElem B [] h2,
    List.getD_eq_getElem _ _ hj1, List.getD_eq_getElem _ _ hj2] at hc
  exact hc

theorem rotatePiece_getD (p : Piece) (R C : Nat) (hP : Proper p.shape R C)
    (hR0 : 0 < R) (c j : Nat) (hc : c < C) (hj : j < R) :
    ((rotatePiece p).shape.getD c []).getD j 0
      = (p.shape.getD (R - 1 - j) []).getD c 0 := by
  obtain ⟨hR, hC⟩ := hP
  have hcols : (p.shape.getD 0 []).length = C := hC 0 (hR ▸ hR0)
  unfold rotatePiece
  simp only
  rw [hcols, getD_range_map _ _ _ _ hc, hR, getD_range_map _ _ _ _ hj]

theorem rotatePiece_proper (p : Piece) (R C : Nat) (hP : Proper p.shape R C)
    (hR0 : 0 < R) : Proper (rotatePiece p).shape C R := by
  obtain ⟨hR, hC⟩ := hP
  have hcols : (p.shape.getD 0 []).length = C := hC 0 (hR ▸ hR0)
  constructor
  · show ((List.range (p.shape.getD 0 []).length).map _).length = C
    rw [List.length_map, List.length_range, hcols]
  · intro i hi
    unfold rotatePiece
    simp only
    rw [hcols, getD_range_map _ _ _ _ hi]
    simp [hR]

/-- C7: `rotatePiece` on a proper `R × C` shape yields a proper `C × R`
shape with `shape'[c][R-1-r] = shape[r][c]` for all `r < R`, `c < C`
(the input piece is unchanged: the operation builds a fresh matrix), and
four clockwise rotations restore the original shape matrix. -/
theorem rotatePiece_spec (p : Piece) (R C : Nat) (hR : p.shape.length = R)
    (hC : ∀ i, i < R → (p.shape.getD i []).length = C) (hR0 : 0 < R) (hC0 : 0 < C) :
    (rotatePiece p).shape.length = C ∧
    (∀ i, i < C → ((rotatePiece p).shape.getD i []).length = R) ∧
    (∀ r, r < R → ∀ c, c < C →
      ((rotatePiece p).shape.getD c []).getD (R - 1 - r) 0
        = (p.shape.getD r []).getD c 0) ∧
    (rotatePiece (rotatePiece (rotatePiece (rotatePiece p)))).shape = p.shape := by
  have hP : Proper p.shape R C := ⟨hR, hC⟩
  have hP1 : Proper (rotatePiece p).shape C R := rotatePiece_proper p R C hP hR0
  have hP2 : Proper (rotatePiece (rotatePiece p)).shape R C :=
    rotatePiece_proper _ C R hP1 hC0
  have hP3 : Proper (rotatePiece (rotatePiece (rotatePiece p))).shape C R :=
    rotatePiece_proper _ R C hP2 hR0
  have hP4 : Proper (rotatePiece (rotatePiece (rotatePiece (rotatePiece p)))).shape R C :=
    rotatePiece_proper _ C R hP3 hC0
  refine ⟨hP1.1, hP1.2, ?_, ?_⟩
  · intro r hr c hc
    have hj : R - 1 - r < R := by omega
    rw [rotatePiece_getD p R C hP hR0 c (R - 1 - r) hc hj]
    congr 2
    omega
  · apply shape_ext2
    · rw [hP4.1, hR]
    · intro i hi
      rw [hP4.1] at hi
      rw [hP4.2 i hi, hC i hi]
    · intro i j hi hj
      rw [hP4.1] at hi
      rw [hP4.2 i hi] at hj
      rw [rotatePiece_getD _ C R hP3 hC0 i j hi hj]
      have h3 : C - 1 - j < C := by omega
      rw [rotatePiece_getD _ R C hP2 hR0 (C - 1 - j) i h3 hi]
      have h2 : R - 1 - i < R := by omega
      rw [rotatePiece_getD _ C R hP1 hC0 (R - 1 - i) (C - 1 - j) h2 (by omega)]
      rw [rotatePiece_getD _ R C hP hR0 (C - 1 - (C - 1 - j)) (R - 1 - i) (by omega) (by omega)]
      congr 2 <;> omega

/-! ## C5: line clearing -/

theorem isRowComplete_emptyRow : isRowComplete emptyRow = false := by decide

theorem clearAt_spec (B : Board) : ∀ (A S : Board) (n fuel : Nat),
    (∀ r ∈ B, isRowComplete r = true) →
    (A.getLast? = none ∨ ∃ a, A.getLast? = some a ∧ isRowComplete a = false) →
    A.length + B.length = n + 1 → B.length < fuel →
    clearAt fuel ((A ++ B) ++ S) n
      = ((List.replicate B.length emptyRow ++ A) ++ S, B.length) := by
  induction B using List.reverseRecOn with
  | nil =>
    intro A S n fuel hB hA hlen hfuel
    obtain ⟨fuel, rfl⟩ : ∃ f, fuel = f + 1 := ⟨fuel - 1, by omega⟩
    have hAlen : A.length = n + 1 := by simpa using hlen
    have hne : A ≠ [] := by
      intro h; rw [h] at hAlen; simp at hAlen
    obtain ⟨a, ha, hainc⟩ : ∃ a, A.getLast? = some a ∧ isRowComplete a = false := by
      rcases hA with h | h
      · exact absurd (List.getLast?_eq_none_iff.mp h) hne
      · exact h
    have hgetn : A[n]? = some a := by
      rw [List.getLast?_eq_getElem?, hAlen] at ha
      simpa using ha
    have hrow : rowAt ((A ++ []) ++ S) n = a := by
      rw [List.append_nil]
      unfold rowAt
      rw [List.getD_append _ _ _ _ (by omega), List.getD_eq_getElem?_getD, hgetn]
      rfl
    simp only [clearAt, hrow, hainc]
    simp
  | append_singleton B' b ih =>
    intro A S n fuel hB hA hlen hfuel
    obtain ⟨fuel, rfl⟩ : ∃ f, fuel = f + 1 := ⟨fuel - 1, by omega⟩
    have hb : isRowComplete b = true := hB b (by simp)
    have hB' : ∀ r ∈ B', isRowComplete r = true := fun r hr => hB r (by simp [hr])
    have hlenAB : (A ++ B').length = n := by
      simp at hlen ⊢; omega
    have hassoc : (A ++ (B' ++ [b])) ++ S = (A ++ B') ++ ([b] ++ S) := by simp
    have hrow : rowAt ((A ++ (B' ++ [b])) ++ S) n = b := by
      unfold rowAt
      rw [hassoc, List.getD_eq_getElem?_getD, List.getElem?_append_right (by omega), hlenAB]
      simp
    have hshift : shiftAt ((A ++ (B' ++ [b])) ++ S) n = ((emptyRow :: A) ++ B') ++ S := by
      unfold shiftAt
      rw [hassoc, List.take_left' hlenAB]
      rw [show (A ++ B') ++ ([b] ++ S) = ((A ++ B') ++ [b]) ++ S by simp]
      rw [List.drop_left'
        (by simp only [List.length_append] at hlenAB ⊢; simp; omega)]
      simp
    have hA2 : (emptyRow :: A).getLast? = none ∨
        ∃ a, (emptyRow :: A).getLast? = some a ∧ isRowComplete a = false := by
      rcases hA with h | h
      · right
        rw [List.getLast?_eq_none_iff.mp h]
        exact ⟨emptyRow, rfl, isRowComplete_emptyRow⟩
      · obtain ⟨a, ha, hainc⟩ := h
        right
        refine ⟨a, ?_, hainc⟩
        rw [show emptyRow :: A = [emptyRow] ++ A by rfl, List.getLast?_append, ha]
        rfl
    have hlen2 : (emptyRow :: A).length + B'.length = n + 1 := by
      simp only [List.length_append, List.length_cons, List.length_nil] at hlen ⊢
      omega
    have hfuel2 : B'.length < fuel := by
      simp only [List.length_append, List.length_cons, List.length_nil] at hfuel
      omega
    simp only [clearAt, hrow, hb, if_true]
    rw [hshift, ih (emptyRow :: A) S n fuel hB' hA2 hlen2 hfuel2]
    simp only [Prod.mk.injEq]
    refine ⟨?_, by simp⟩
    rw [show List.replicate B'.length emptyRow ++ (emptyRow :: A)
          = List.replicate (B' ++ [b]).length emptyRow ++ A by
        rw [show List.replicate (B' ++ [b]).length emptyRow
              = List.replicate B'.length emptyRow ++ [emptyRow] by
            simp [List.replicate_succ']]
        rw [List.append_assoc]
        rfl]

theorem head?_dropWhile_false {p : Row → Bool} :
    ∀ (l : List Row) (a : Row), (l.dropWhile p).head? = some a → p a = false := by
  intro l
  induction l with
  | nil => intro a h; simp at h
  | cons x xs ih =>
    intro a h
    rw [List.dropWhile_cons] at h
    by_cases hx : p x = true
    · rw [if_pos hx] at h
      exact ih a h
    · rw [if_neg hx] at h
      simp at h
      subst h
      simpa using hx

theorem countP_replicate_emptyRow (k : Nat) :
    (List.replicate k emptyRow).countP (fun r => isRowComplete r) = 0 := by
  rw [List.countP_eq_zero]
  intro a ha
  rw [List.eq_of_mem_replicate ha]
  simp [isRowComplete_emptyRow]

theorem filter_replicate_emptyRow (k : Nat) :
    (List.replicate k emptyRow).filter (fun r => !isRowComplete r)
      = List.replicate k emptyRow := by
  rw [List.filter_eq_self]
  intro a ha
  rw [List.eq_of_mem_replicate ha]
  simp [isRowComplete_emptyRow]

theorem clearScan_spec : ∀ (n : Nat) (P S : Board), P.length = n →
    clearScan n (P ++ S)
      = ((List.replicate (P.countP (fun r => isRowComplete r)) emptyRow
          ++ P.filter (fun r => !isRowComplete r)) ++ S,
         P.countP (fun r => isRowComplete r)) := by
  intro n
  induction n with
  | zero =>
    intro P S hP
    rw [List.length_eq_zero.mp hP]
    simp [clearScan]
  | succ n ih =>
    intro P S hP
    obtain ⟨A, B, hPAB, hBcomp, hAlast⟩ :
        ∃ A B : Board, P = A ++ B ∧ (∀ r ∈ B, isRowComplete r = true) ∧
          (A.getLast? = none ∨ ∃ a, A.getLast? = some a ∧ isRowComplete a = false) := by
      refine ⟨(P.reverse.dropWhile (fun r => isRowComplete r)).reverse,
        (P.reverse.takeWhile (fun r => isRowComplete r)).reverse, ?_, ?_, ?_⟩
      · rw [← List.reverse_append, List.takeWhile_append_dropWhile, List.reverse_reverse]
      · intro r hr
        rw [List.mem_reverse] at hr
        exact List.mem_takeWhile_imp hr
      · rw [List.getLast?_reverse]
        cases hh : (P.reverse.dropWhile (fun r => isRowComplete r)).head? with
        | none => exact Or.inl rfl
        | some a => exact Or.inr ⟨a, rfl, head?_dropWhile_false _ a hh⟩
    have hlenP : A.length + B.length = n + 1 := by
      rw [← List.length_append, ← hPAB, hP]
    have hfilB : B.filter (fun r => !isRowComplete r) = [] := by
      rw [List.filter_eq_nil_iff]
      intro x hx
      simp [hBcomp x hx]
    rw [hPAB, List.countP_append, List.filter_append,
      List.countP_eq_length.mpr hBcomp, hfilB, List.append_nil]
    simp only [clearScan]
    rw [clearAt_spec B A S n (n + 2) hBcomp hAlast hlenP (by omega)]
    dsimp only
    by_cases hAnil : A = []
    · subst hAnil
      simp only [List.countP_nil, List.filter_nil, List.nil_append, List.append_nil,
        Nat.zero_add, List.length_nil] at hlenP ⊢
      rw [hlenP]
      rw [show List.replicate (n + 1) emptyRow ++ S
            = List.replicate n emptyRow ++ ([emptyRow] ++ S) by
          rw [← List.append_assoc, ← List.replicate_succ']]
      rw [ih (List.replicate n emptyRow) ([emptyRow] ++ S) (by simp)]
      rw [countP_replicate_emptyRow, filter_replicate_emptyRow]
      dsimp only
      simp [List.replicate_succ', List.append_assoc]
    · obtain ⟨a, hlast, hainc⟩ : ∃ a, A.getLast? = some a ∧ isRowComplete a = false := by
        rcases hAlast with h | h
        · exact absurd (List.getLast?_eq_none_iff.mp h) hAnil
        · exact h
      have hAsplit : A = A.dropLast ++ [a] := (List.dropLast_append_getLast? a hlast).symm
      have hlen3 : (List.replicate B.length emptyRow ++ A.dropLast).length = n := by
        have hdl : A.dropLast.length = A.length - 1 := List.length_dropLast A
        have hApos : 0 < A.length := List.length_pos.mpr hAnil
        simp only [List.length_append, List.length_replicate, hdl]
        omega
      rw [show (List.replicate B.length emptyRow ++ A) ++ S
            = (List.replicate B.length emptyRow ++ A.dropLast) ++ ([a] ++ S) by
          conv_lhs => rw [hAsplit]
          simp [List.append_assoc]]
      rw [ih (List.replicate B.length emptyRow ++ A.dropLast) ([a] ++ S) hlen3]
      have hcntA : A.countP (fun r => isRowComplete r)
          = A.dropLast.countP (fun r => isRowComplete r) := by
        conv_lhs => rw [hAsplit]
        rw [List.countP_append]
        simp [hainc]
      have hfilA : A.filter (fun r => !isRowComplete r)
          = A.dropLast.filter (fun r => !isRowComplete r) ++ [a] := by
        conv_lhs => rw [hAsplit]
        rw [List.filter_append]
        simp [hainc]
      rw [List.countP_append, countP_replicate_emptyRow, List.filter_append,
        filter_replicate_emptyRow, hcntA, hfilA]
      dsimp only
      simp only [Prod.mk.injEq]
      constructor
      · rw [Nat.zero_add, List.replicate_add]
        simp only [List.append_assoc]
      · omega

/-- C5: `checkForCompletedLines` (bottom-to-top scan with re-examination of
a row index after each shift) removes exactly the complete rows — every row
all of whose cells are non-empty — shifting the surviving rows down, in
order, below freshly inserted empty rows at the top, and returns the number
of rows removed; the returned board contains no complete row. -/
theorem checkForCompletedLines_spec (b : Board) (hb : b.length = ROWS) :
    checkForCompletedLines b
      = (List.replicate (b.countP (fun r => isRowComplete r)) emptyRow
          ++ b.filter (fun r => !isRowComplete r),
         b.countP (fun r => isRowComplete r)) ∧
    ∀ r ∈ (checkForCompletedLines b).1, isRowComplete r = false := by
  have h := clearScan_spec ROWS b [] hb
  rw [List.append_nil] at h
  unfold checkForCompletedLines
  rw [h, List.append_nil]
  refine ⟨rfl, ?_⟩
  intro r hr
  rcases List.mem_append.mp hr with hmem | hmem
  · rw [List.eq_of_mem_replicate hmem]
    exact isRowComplete_emptyRow
  · have := List.of_mem_filter hmem
    simpa using this

/-- A completely filled row (used in concrete scenarios). -/
def fullRow : Row := List.replicate COLS (some "X")

/-- A board whose only complete row is the bottom one. -/
def demoBoard : Board := List.replicate (ROWS - 1) emptyRow ++ [fullRow]

/-- An O piece resting on the floor of an empty board: moving down is
rejected there. -/
def bottomState : PlayerState :=
  { board := createEmptyBoard, currentPiece := pieceO, currentX := 4, currentY := 18,
    score := 0, linesCleared := 0, gameOver := false }

/-- A state whose game is already over. -/
def overState : PlayerState :=
  { board := createEmptyBoard, currentPiece := pieceO, currentX := 4, currentY := 0,
    score := 0, linesCleared := 0, gameOver := true }

/-- C5 witness. -/
theorem checkForCompletedLines_spec_witness :
    checkForCompletedLines demoBoard
      = (List.replicate (demoBoard.countP (fun r => isRowComplete r)) emptyRow
          ++ demoBoard.filter (fun r => !isRowComplete r),
         demoBoard.countP (fun r => isRowComplete r)) ∧
    ∀ r ∈ (checkForCompletedLines demoBoard).1, isRowComplete r = false :=
  checkForCompletedLines_spec demoBoard (by decide)

/-! ## C1: rejected down moves -/

set_option maxRecDepth 100000 in
/-- C1 (counterexample): in `bottomState` the down move is rejected, yet
`processMove` changes the board — the handler locks the piece instead of
returning the state unchanged. -/
theorem processMove_down_rejected_locks_cex :
    isValidMove bottomState.board bottomState.currentPiece.shape bottomState.currentX
        (bottomState.currentY + 1) = false ∧
    (processMove bottomState .down pieceT).board ≠ bottomState.board := by decide

/-- C1 (amended): when a down move is rejected, `processMove` locks the
piece on the spot (performing exactly the explicit lock operation) whenever
the position two cells below is also invalid; only when the two-below
position is valid does the rejected down move leave the state unchanged,
and rejected left/right moves always leave the state unchanged. -/
theorem processMove_rejected_spec (s : PlayerState) (next : Piece) :
    (isValidMove s.board s.currentPiece.shape s.currentX (s.currentY + 1) = false →
      ((isValidMove s.board s.currentPiece.shape s.currentX (s.currentY + 1 + 1) = false →
        processMove s .down next = (processLock s next).state) ∧
       (isValidMove s.board s.currentPiece.shape s.currentX (s.currentY + 1 + 1) = true →
        processMove s .down next = s))) ∧
    (isValidMove s.board s.currentPiece.shape (s.currentX - 1) s.currentY = false →
      processMove s .left next = s) ∧
    (isValidMove s.board s.currentPiece.shape (s.currentX + 1) s.currentY = false →
      processMove s .right next = s) := by
  refine ⟨fun h1 => ⟨fun h2 => ?_, fun h2 => ?_⟩, fun h1 => ?_, fun h1 => ?_⟩
  · unfold processMove
    rw [if_neg (by simp [h1]), if_pos ⟨rfl, by simp [h2]⟩]
  · unfold processMove
    rw [if_neg (by simp [h1]), if_neg (by simp [h2])]
  · unfold processMove
    rw [if_neg (by simp [h1]), if_neg (by simp)]
  · unfold processMove
    rw [if_neg (by simp [h1]), if_neg (by simp)]

/-- C1 witness for the amended claim. -/
theorem processMove_rejected_spec_witness :
    processMove bottomState .down pieceT = (processLock bottomState pieceT).state :=
  ((processMove_rejected_spec bottomState pieceT).1 (by decide)).1 (by decide)

/-! ## C2: behaviour after game over -/

set_option maxRecDepth 100000 in
/-- C2 (counterexample): `overState` has `gameOver = true`, yet a handled
`lock` message still mutates its board. -/
theorem gameOver_still_mutates_cex :
    overState.gameOver = true ∧
    (processAction overState .lock pieceT).board ≠ overState.board := by decide

/-- C2 (amended): the handlers never consult `gameOver`: handling any
message on a state with `gameOver = true` performs exactly the same
board/piece/position/score transformation as on the same state with
`gameOver` cleared, with `gameOver` simply remaining true — so a game-over
state can still be mutated by later messages. -/
theorem processAction_ignores_gameOver (s : PlayerState) (a : Action) (next : Piece) :
    processAction { s with gameOver := true } a next
      = { processAction s a next with gameOver := true } := by
  have hlock : ∀ t : PlayerState,
      (processLock { t with gameOver := true } next).state
        = { (processLock t next).state with gameOver := true } := by
    intro t
    unfold processLock
    dsimp only
    by_cases h : isValidMove
        (checkForCompletedLines
          (lockBoard t.board t.currentPiece.shape t.currentX t.currentY
            t.currentPiece.color)).1 next.shape (spawnX next.shape) 0 = true
    · rw [if_pos h, if_pos h]
    · rw [if_neg h, if_neg h]
  cases a with
  | moveLeft =>
    show processMove { s with gameOver := true } .left next
        = { processMove s .left next with gameOver := true }
    unfold processMove
    dsimp only
    by_cases h1 : isValidMove s.board s.currentPiece.shape (s.currentX - 1) s.currentY = true
    · rw [if_pos h1, if_pos h1]
    · rw [if_neg h1, if_neg h1, if_neg (by simp), if_neg (by simp)]
  | moveRight =>
    show processMove { s with gameOver := true } .right next
        = { processMove s .right next with gameOver := true }
    unfold processMove
    dsimp only
    by_cases h1 : isValidMove s.board s.currentPiece.shape (s.currentX + 1) s.currentY = true
    · rw [if_pos h1, if_pos h1]
    · rw [if_neg h1, if_neg h1, if_neg (by simp), if_neg (by simp)]
  | moveDown =>
    show processMove { s with gameOver := true } .down next
        = { processMove s .down next with gameOver := true }
    unfold processMove
    dsimp only
    by_cases h1 : isValidMove s.board s.currentPiece.shape s.currentX (s.currentY + 1) = true
    · rw [if_pos h1, if_pos h1]
    · rw [if_neg h1, if_neg h1]
      by_cases h2 : isValidMove s.board s.currentPiece.shape s.currentX
          (s.currentY + 1 + 1) = true
      · rw [if_neg (by simp [h2]), if_neg (by simp [h2])]
      · rw [if_pos ⟨rfl, by simp [h2]⟩, if_pos ⟨rfl, by simp [h2]⟩]
        exact hlock s
  | rotate =>
    show processRotate { s with gameOver := true }
        = { processRotate s with gameOver := true }
    unfold processRotate
    dsimp only
    by_cases h : isValidMove s.board (rotatePiece s.currentPiece).shape
        s.currentX s.currentY = true
    · rw [if_pos h, if_pos h]
    · rw [if_neg h, if_neg h]
  | dropPiece =>
    show (processDropPiece { s with gameOver := true } next).state
        = { (processDropPiece s next).state with gameOver := true }
    unfold processDropPiece
    exact hlock
      { s with currentY := dropY s.board s.currentPiece.shape s.currentX (ROWS + 1) s.currentY }
  | lock =>
    exact hlock s

/-! ## C3: garbage propagation -/

theorem list_ext_getD {α : Type} (d : α) (L M : List α) (hlen : L.length = M.length)
    (h : ∀ i, i < L.length → L.getD i d = M.getD i d) : L = M := by
  apply List.ext_getElem hlen
  intro i h1 h2
  have hi := h i h1
  rwa [List.getD_eq_getElem _ _ h1, List.getD_eq_getElem _ _ h2] at hi

theorem getD_drop {α : Type} (l : List α) (n i : Nat) (d : α) :
    (l.drop n).getD i d = l.getD (n + i) d := by
  rw [List.getD_eq_getElem?_getD, List.getD_eq_getElem?_getD, List.getElem?_drop]

theorem getD_reverse {α : Type} (l : List α) (i : Nat) (d : α) (h : i < l.length) :
    l.reverse.getD i d = l.getD (l.length - 1 - i) d := by
  rw [List.getD_eq_getElem?_getD, List.getD_eq_getElem?_getD,
    List.getElem?_reverse h]

theorem addGarbageLines_board (s : PlayerState) (n : Nat) (gaps : List Nat) (hn : 0 < n) :
    (addGarbageLines s n gaps).board
      = (List.range ROWS).map (fun r =>
          if r < ROWS - min n (ROWS - 4) then s.board.getD (r + min n (ROWS - 4)) []
          else garbageRow (gaps.getD (ROWS - 1 - r) 0)) := by
  unfold addGarbageLines
  rw [if_neg (by show ¬(min n (ROWS - 4) = 0); rw [show ROWS - 4 = 16 from rfl]; omega)]
  dsimp only
  split
  · rfl
  · split <;> rfl

/-- C3: a lock that clears `n` lines requests garbage for the opponent only
when `n > 1` (one cleared line sends none), requesting exactly `n − 1`
rows; garbage insertion into the opponent's board inserts exactly
`min(requested, ROWS − 4)` garbage rows at the bottom, shifting the
surviving rows up, so at least 4 non-garbage rows always remain. -/
theorem garbage_propagation_spec (s : PlayerState) (next : Piece) (s2 : PlayerState)
    (n : Nat) (gaps : List Nat) :
    ((processLock s next).cleared ≤ 1 → (processLock s next).garbage = 0) ∧
    (1 < (processLock s next).cleared →
      (processLock s next).garbage = (processLock s next).cleared - 1) ∧
    (s2.board.length = ROWS → 0 < n →
      (addGarbageLines s2 n gaps).board.take (ROWS - min n (ROWS - 4))
          = s2.board.drop (min n (ROWS - 4)) ∧
      (addGarbageLines s2 n gaps).board.drop (ROWS - min n (ROWS - 4))
          = ((List.range (min n (ROWS - 4))).map
              (fun i => garbageRow (gaps.getD i 0))).reverse ∧
      4 ≤ ROWS - min n (ROWS - 4)) := by
  have hg : (processLock s next).garbage
      = if 1 < (processLock s next).cleared then (processLock s next).cleared - 1 else 0 := by
    unfold processLock
    dsimp only
  refine ⟨fun h => ?_, fun h => ?_, fun hb hn => ?_⟩
  · rw [hg, if_neg (by omega)]
  · rw [hg, if_pos h]
  · have hlta : min n (ROWS - 4) ≤ ROWS := Nat.le_trans (Nat.min_le_right _ _) (Nat.sub_le _ _)
    rw [addGarbageLines_board s2 n gaps hn]
    refine ⟨?_, ?_, ?_⟩
    · apply list_ext_getD ([] : Row)
      · rw [List.length_take, List.length_map, List.length_range, List.length_drop, hb]
        omega
      · intro i hi
        rw [List.length_take, List.length_map, List.length_range] at hi
        have hi2 : i < ROWS - min n (ROWS - 4) := lt_of_lt_of_le hi (Nat.min_le_left _ _)
        rw [List.getD_eq_getElem?_getD, List.getElem?_take, if_pos hi2,
          ← List.getD_eq_getElem?_getD]
        rw [getD_range_map _ ROWS i [] (by omega)]
        rw [if_pos hi2, getD_drop, Nat.add_comm i (min n (ROWS - 4))]
    · apply list_ext_getD ([] : Row)
      · rw [List.length_drop, List.length_map, List.length_range,
          List.length_reverse, List.length_map, List.length_range]
        omega
      · intro i hi
        rw [List.length_drop, List.length_map, List.length_range] at hi
        have hi2 : i < min n (ROWS - 4) := by omega
        rw [getD_drop, getD_range_map _ ROWS _ [] (by omega)]
        rw [if_neg (by omega)]
        rw [getD_reverse _ _ _ (by rw [List.length_map, List.length_range]; exact hi2)]
        rw [List.length_map, List.length_range]
        rw [getD_range_map _ _ _ [] (by omega)]
        rw [show ROWS - 1 - (ROWS - min n (ROWS - 4) + i)
              = min n (ROWS - 4) - 1 - i by omega]
    · rw [show ROWS - 4 = 16 from rfl]
      rw [show ROWS = 20 from rfl]
      omega

/-- A state with score 7 and three lines already cleared, receiving garbage. -/
def garbState : PlayerState :=
  { board := createEmptyBoard, currentPiece := pieceO, currentX := 4, currentY := 0,
    score := 7, linesCleared := 3, gameOver := false }

set_option maxRecDepth 100000 in
/-- C3 witness. -/
theorem garbage_propagation_spec_witness :
    (processLock bottomState pieceT).garbage = 0 ∧
    ((addGarbageLines garbState 2 [3, 7]).board.take (ROWS - min 2 (ROWS - 4))
        = garbState.board.drop (min 2 (ROWS - 4)) ∧
      (addGarbageLines garbState 2 [3, 7]).board.drop (ROWS - min 2 (ROWS - 4))
        = ((List.range (min 2 (ROWS - 4))).map
            (fun i => garbageRow ([3, 7].getD i 0))).reverse ∧
      4 ≤ ROWS - min 2 (ROWS - 4)) :=
  ⟨(garbage_propagation_spec bottomState pieceT garbState 2 [3, 7]).1 (by decide),
   (garbage_propagation_spec bottomState pieceT garbState 2 [3, 7]).2.2 (by decide) (by decide)⟩

/-! ## C8: scoring -/

theorem countP_eq_one_of_last (L : List Row) (m : Nat) (hm : L.length = m) (hm0 : 0 < m)
    (hlast : isRowComplete (L.getD (m - 1) []) = true)
    (hrest : ∀ i, i < m - 1 → isRowComplete (L.getD i []) = false) :
    L.countP (fun r => isRowComplete r) = 1 := by
  have hlast? : L.getLast? = some (L.getD (m - 1) []) := by
    rw [List.getLast?_eq_getElem?, hm, List.getElem?_eq_getElem (by omega),
      List.getD_eq_getElem _ _ (by omega)]
  have hsplit : L.dropLast ++ [L.getD (m - 1) []] = L :=
    List.dropLast_append_getLast? _ hlast?
  have hdrop : L.dropLast.countP (fun r => isRowComplete r) = 0 := by
    rw [List.countP_eq_zero]
    intro x hx
    obtain ⟨i, hi, rfl⟩ := List.mem_iff_getElem.mp hx
    have hilt : i < m - 1 := by
      have := List.length_dropLast L
      omega
    rw [List.getElem_dropLast]
    have := hrest i hilt
    rw [List.getD_eq_getElem _ _ (by omega)] at this
    simp [this]
  calc L.countP (fun r => isRowComplete r)
      = (L.dropLast ++ [L.getD (m - 1) []]).countP (fun r => isRowComplete r) := by
        rw [hsplit]
    _ = 1 := by
        rw [List.countP_append, hdrop, Nat.zero_add, List.countP_cons, List.countP_nil]
        simp only [hlast]
        rfl

/-- C8: when a lock clears `n > 0` lines the score increases by exactly the
table value — 100, 300, 500, 800 for 1–4 lines, `n × 100` otherwise; in
particular, when the board after committing the piece has exactly its bottom
row complete, the lock reports one cleared line, adds exactly 100 points,
and requests no garbage. -/
theorem processLock_scoring_spec (s : PlayerState) (next : Piece) :
    (0 < (processLock s next).cleared →
      (processLock s next).state.score
        = s.score + (if (processLock s next).cleared = 1 then 100
            else if (processLock s next).cleared = 2 then 300
            else if (processLock s next).cleared = 3 then 500
            else if (processLock s next).cleared = 4 then 800
            else (processLock s next).cleared * 100)) ∧
    ((lockBoard s.board s.currentPiece.shape s.currentX s.currentY
        s.currentPiece.color).length = ROWS →
      isRowComplete ((lockBoard s.board s.currentPiece.shape s.currentX s.currentY
        s.currentPiece.color).getD (ROWS - 1) []) = true →
      (∀ i, i < ROWS - 1 →
        isRowComplete ((lockBoard s.board s.currentPiece.shape s.currentX s.currentY
          s.currentPiece.color).getD i []) = false) →
      (processLock s next).cleared = 1 ∧
      (processLock s next).state.score = s.score + 100 ∧
      (processLock s next).garbage = 0) := by
  have hcl : (processLock s next).cleared
      = (checkForCompletedLines (lockBoard s.board s.currentPiece.shape s.currentX
          s.currentY s.currentPiece.color)).2 := by
    unfold processLock
    dsimp only
  have hsc : (processLock s next).state.score
      = if 0 < (processLock s next).cleared
          then s.score + scoreValue (processLock s next).cleared else s.score := by
    unfold processLock
    dsimp only
    by_cases h : isValidMove
        (checkForCompletedLines (lockBoard s.board s.currentPiece.shape s.currentX
          s.currentY s.currentPiece.color)).1 next.shape (spawnX next.shape) 0 = true
    · rw [if_pos h]
    · rw [if_neg h]
  have hgar : (processLock s next).garbage
      = if 1 < (processLock s next).cleared then (processLock s next).cleared - 1 else 0 := by
    unfold processLock
    dsimp only
  constructor
  · intro h
    rw [hsc, if_pos h]
    rfl
  · intro hb hlast hrest
    have hcount := countP_eq_one_of_last _ ROWS hb (by decide) hlast hrest
    have hscan := clearScan_spec ROWS
      (lockBoard s.board s.currentPiece.shape s.currentX s.currentY s.currentPiece.color)
      [] hb
    rw [List.append_nil, List.append_nil] at hscan
    have hclr : (processLock s next).cleared = 1 := by
      rw [hcl]
      unfold checkForCompletedLines
      rw [hscan]
      exact hcount
    refine ⟨hclr, ?_, ?_⟩
    · rw [hsc, hclr, if_pos (by omega)]
      rfl
    · rw [hgar, hclr]
      decide

/-! ## C10: score and line count never decrease -/

/-- C10: no handled message — moves, rotation, drop, lock — ever decreases
a session's score or cleared-line count, and receiving garbage from the
opponent leaves both exactly unchanged. -/
theorem score_lines_monotone_spec (s : PlayerState) (a : Action) (next : Piece)
    (n : Nat) (gaps : List Nat) :
    s.score ≤ (processAction s a next).score ∧
    s.linesCleared ≤ (processAction s a next).linesCleared ∧
    (addGarbageLines s n gaps).score = s.score ∧
    (addGarbageLines s n gaps).linesCleared = s.linesCleared := by
  have hlock : ∀ t : PlayerState, t.score ≤ (processLock t next).state.score ∧
      t.linesCleared ≤ (processLock t next).state.linesCleared := by
    intro t
    unfold processLock
    dsimp only
    constructor <;>
    · split
      all_goals dsimp only
      all_goals split
      all_goals omega
  have hgarb : (addGarbageLines s n gaps).score = s.score ∧
      (addGarbageLines s n gaps).linesCleared = s.linesCleared := by
    unfold addGarbageLines
    dsimp only
    constructor <;>
    · split
      · rfl
      · split
        · rfl
        · split <;> rfl
  have hmove : ∀ d : Dir, s.score ≤ (processMove s d next).score ∧
      s.linesCleared ≤ (processMove s d next).linesCleared := by
    intro d
    unfold processMove
    dsimp only
    split
    · exact ⟨le_refl _, le_refl _⟩
    · split
      · exact hlock s
      · exact ⟨le_refl _, le_refl _⟩
  have hact : s.score ≤ (processAction s a next).score ∧
      s.linesCleared ≤ (processAction s a next).linesCleared := by
    cases a with
    | moveLeft => exact hmove .left
    | moveRight => exact hmove .right
    | moveDown => exact hmove .down
    | rotate =>
      show s.score ≤ (processRotate s).score ∧
        s.linesCleared ≤ (processRotate s).linesCleared
      unfold processRotate
      dsimp only
      split
      · exact ⟨le_refl _, le_refl _⟩
      · exact ⟨le_refl _, le_refl _⟩
    | dropPiece =>
      exact hlock
        { s with currentY := dropY s.board s.currentPiece.shape s.currentX (ROWS + 1) s.currentY }
    | lock => exact hlock s
  exact ⟨hact.1, hact.2, hgarb.1, hgarb.2⟩

/-- C7 witness (the T piece, a proper 3 × 3 shape). -/
theorem rotatePiece_spec_witness :
    (rotatePiece pieceT).shape.length = 3 ∧
    (∀ i, i < 3 → ((rotatePiece pieceT).shape.getD i []).length = 3) ∧
    (∀ r, r < 3 → ∀ c, c < 3 →
      ((rotatePiece pieceT).shape.getD c []).getD (3 - 1 - r) 0
        = (pieceT.shape.getD r []).getD c 0) ∧
    (rotatePiece (rotatePiece (rotatePiece (rotatePiece pieceT)))).shape = pieceT.shape :=
  rotatePiece_spec pieceT 3 3 (by decide) (by decide) (by decide) (by decide)

/-- A bottom row that the O piece at `(4, 18)` completes on lock. -/
def nearlyFullRow : Row :=
  (List.range COLS).map fun c => if c = 4 ∨ c = 5 then none else some "X"

/-- A state one lock away from clearing exactly the bottom row. -/
def scoreState : PlayerState :=
  { board := List.replicate (ROWS - 1) emptyRow ++ [nearlyFullRow],
    currentPiece := pieceO, currentX := 4, currentY := 18,
    score := 0, linesCleared := 0, gameOver := false }

set_option maxRecDepth 100000 in
/-- C8 witness. -/
theorem processLock_scoring_spec_witness :
    (processLock scoreState pieceT).cleared = 1 ∧
    (processLock scoreState pieceT).state.score = scoreState.score + 100 ∧
    (processLock scoreState pieceT).garbage = 0 :=
  (processLock_scoring_spec scoreState pieceT).2 (by decide) (by decide) (by decide)

/-! ## Room manager (C6, C9)

Connections (`ws` handles) are modelled as natural-number identifiers; the
`clients`, `gameRooms` and `clientToRoom` JS `Map`s become functions into
`Option`.  Outbound `ws.send` calls become a list of messages. -/

/-- The per-connection record stored in the `clients` map: `{ id, state }`. -/
structure ClientData where
  id : Nat
  state : PlayerState
  deriving Repr

/-- Room lifecycle status strings: "waiting", "playing", "ended". -/
inductive RoomStatus | waiting | playing | ended
  deriving DecidableEq, Repr

/-- A game room, as built by `handleCreateGame`. -/
structure Room where
  code : String
  host : Nat
  hostId : Nat
  guest : Option Nat
  guestId : Option Nat
  status : RoomStatus
  deriving Repr

/-- The process-wide mutable registries of server.js. -/
structure ServerState where
  clients : Nat → Option ClientData
  gameRooms : String → Option Room
  clientToRoom : Nat → Option String

/-- Outbound messages relevant to the room handlers. -/
inductive ServerMsg
  | errorMsg (dest : Nat) (text : String)
  | gameCreated (dest : Nat) (code : String) (playerId : Nat)
  | gameJoined (dest : Nat) (code : String) (playerId opponentId : Nat)
  | playerJoined (dest : Nat) (code : String) (opponentId : Nat)
  | gameCanceled (dest : Nat) (code : String)
  | opponentDisconnected (dest : Nat) (reason : String)
  | gameStateUpdate (dest : Nat)
  deriving DecidableEq, Repr

/-- `handleCreateGame(ws)` from server.js.  The generated code (the
`do … while` random draw, which repeats until unused) is passed in as
`code`; theorems about it carry the loop's guarantee `gameRooms code = none`
as a hypothesis. -/
def handleCreateGame (st : ServerState) (ws : Nat) (code : String) :
    ServerState × List ServerMsg :=
  match st.clients ws with
  | none => (st, [])
  | some clientData =>
    let room : Room :=
      { code := code, host := ws, hostId := clientData.id,
        guest := none, guestId := none, status := .waiting }
    ({ st with
        gameRooms := fun c => if c = code then some room else st.gameRooms c,
        clientToRoom := fun w => if w = ws then some code else st.clientToRoom w },
     [.gameCreated ws code clientData.id])

/-- `handleJoinGame(ws, data)` from server.js: reject with an `error`
message when the room is missing, not waiting, or already has a guest
(leaving all state untouched); otherwise attach the guest, flip the status
to playing, register the connection, and notify/push state to both
participants. -/
def handleJoinGame (st : ServerState) (ws : Nat) (code : String) :
    ServerState × List ServerMsg :=
  match st.clients ws with
  | none => (st, [])
  | some guestClient =>
    match st.gameRooms code with
    | none => (st, [.errorMsg ws "Game not found"])
    | some room =>
      if room.status ≠ .waiting ∨ room.guest ≠ none then
        (st, [.errorMsg ws "Game is already full or not in waiting state"])
      else
        let room2 : Room :=
          { room with guest := some ws, guestId := some guestClient.id, status := .playing }
        ({ st with
            gameRooms := fun c => if c = code then some room2 else st.gameRooms c,
            clientToRoom := fun w => if w = ws then some code else st.clientToRoom w },
         [.gameJoined ws code guestClient.id room.hostId,
          .playerJoined room.host code guestClient.id,
          .gameStateUpdate room.host,
          .gameStateUpdate ws])

/-- `handleCancelGame(ws)` from server.js: only the host of a room still in
waiting status can cancel; cancellation deletes the room and the host's
registry entry. -/
def handleCancelGame (st : ServerState) (ws : Nat) : ServerState × List ServerMsg :=
  match st.clientToRoom ws with
  | none => (st, [])
  | some code =>
    match st.gameRooms code with
    | none => ({ st with clientToRoom := fun w => if w = ws then none else st.clientToRoom w }, [])
    | some room =>
      if room.host ≠ ws ∨ room.status ≠ .waiting then (st, [])
      else
        ({ st with
            gameRooms := fun c => if c = code then none else st.gameRooms c,
            clientToRoom := fun w => if w = ws then none else st.clientToRoom w },
         [.gameCanceled ws code])

/-- `handleRoomDisconnection(ws)` from server.js: resolve the connection's
registered room, notify the surviving participant (dropping their registry
entry), then delete the room and the leaver's registry entry. -/
def handleRoomDisconnection (st : ServerState) (ws : Nat) : ServerState × List ServerMsg :=
  match st.clientToRoom ws with
  | none => (st, [])
  | some code =>
    match st.gameRooms code with
    | none => ({ st with clientToRoom := fun w => if w = ws then none else st.clientToRoom w }, [])
    | some room =>
      let notified : ServerState × List ServerMsg :=
        match room.guest with
        | some g =>
          if room.host = ws then
            ({ st with clientToRoom := fun w => if w = g then none else st.clientToRoom w },
             [.opponentDisconnected g "Host left the game"])
          else if g = ws then
            ({ st with clientToRoom := fun w => if w = room.host then none else st.clientToRoom w },
             [.opponentDisconnected room.host "Guest left the game"])
          else (st, [])
        | none => (st, [])
      ({ notified.1 with
          gameRooms := fun c => if c = code then none else notified.1.gameRooms c,
          clientToRoom := fun w => if w = ws then none else notified.1.clientToRoom w },
       notified.2)

/-! ## C6: joining a room -/

/-- C6: a join request from a connected client fails with an `error`
message and leaves all room/registry state untouched when the room does not
exist, is not waiting, or already has a guest; otherwise it attaches the
guest, flips the room to playing, registers the guest connection under the
code, and pushes state to both participants. -/
theorem handleJoinGame_spec (st : ServerState) (ws : Nat) (code : String)
    (gc : ClientData) (hc : st.clients ws = some gc) :
    (st.gameRooms code = none →
      handleJoinGame st ws code = (st, [.errorMsg ws "Game not found"])) ∧
    (∀ room, st.gameRooms code = some room →
      (room.status ≠ .waiting ∨ room.guest ≠ none) →
      handleJoinGame st ws code
        = (st, [.errorMsg ws "Game is already full or not in waiting state"])) ∧
    (∀ room, st.gameRooms code = some room →
      room.status = .waiting → room.guest = none →
      (handleJoinGame st ws code).1.gameRooms code
          = some { room with guest := some ws, guestId := some gc.id, status := .playing } ∧
      (handleJoinGame st ws code).1.clientToRoom ws = some code ∧
      ServerMsg.gameStateUpdate room.host ∈ (handleJoinGame st ws code).2 ∧
      ServerMsg.gameStateUpdate ws ∈ (handleJoinGame st ws code).2) := by
  refine ⟨fun h => ?_, fun room h hbad => ?_, fun room h hw hg => ?_⟩
  · unfold handleJoinGame
    rw [hc, h]
  · unfold handleJoinGame
    rw [hc, h]
    dsimp only
    rw [if_pos hbad]
  · unfold handleJoinGame
    rw [hc, h]
    dsimp only
    rw [if_neg (by simp [hw, hg])]
    refine ⟨by simp, by simp, by simp, by simp⟩

/-- A sample connected client. -/
def wClient : ClientData := { id := 1, state := bottomState }

/-- A second sample client, joining games. -/
def wClient2 : ClientData := { id := 2, state := bottomState }

/-- A waiting room hosted by connection 1. -/
def wRoom : Room :=
  { code := "AAAAAA", host := 1, hostId := 1, guest := none, guestId := none,
    status := .waiting }

/-- A server with clients 1 and 2 where client 1 hosts room "AAAAAA". -/
def wServer : ServerState :=
  { clients := fun w => if w = 2 then some wClient2 else if w = 1 then some wClient else none,
    gameRooms := fun c => if c = "AAAAAA" then some wRoom else none,
    clientToRoom := fun w => if w = 1 then some "AAAAAA" else none }

/-- C6 witness: joining an unknown code only produces an error message. -/
theorem handleJoinGame_spec_witness :
    handleJoinGame wServer 2 "ZZZZZZ" = (wServer, [.errorMsg 2 "Game not found"]) :=
  (handleJoinGame_spec wServer 2 "ZZZZZZ" wClient2 rfl).1 rfl

/-! ## C9: a second createGame/joinGame overwrites the registry entry -/

/-- C9: when a connection already registered to a live room performs a
successful `createGame` (or joins another waiting room), its
connection→room registry entry is overwritten with the new code while the
old room survives unchanged in the live-room set; the connection's
subsequent disconnection (or cancel) removes only the newest room. -/
theorem create_overwrites_registry_spec (st : ServerState) (ws : Nat)
    (cd : ClientData) (oldCode : String) (oldRoom : Room)
    (hc : st.clients ws = some cd)
    (_hreg : st.clientToRoom ws = some oldCode)
    (hold : st.gameRooms oldCode = some oldRoom)
    (newCode : String) (hfresh : st.gameRooms newCode = none) :
    oldCode ≠ newCode ∧
    ((handleCreateGame st ws newCode).1.clientToRoom ws = some newCode ∧
     (handleCreateGame st ws newCode).1.gameRooms oldCode = some oldRoom ∧
     (handleRoomDisconnection (handleCreateGame st ws newCode).1 ws).1.gameRooms newCode
        = none ∧
     (handleRoomDisconnection (handleCreateGame st ws newCode).1 ws).1.gameRooms oldCode
        = some oldRoom ∧
     (handleCancelGame (handleCreateGame st ws newCode).1 ws).1.gameRooms newCode = none ∧
     (handleCancelGame (handleCreateGame st ws newCode).1 ws).1.gameRooms oldCode
        = some oldRoom) ∧
    (∀ joinCode jroom, st.gameRooms joinCode = some jroom →
      jroom.status = .waiting → jroom.guest = none → jroom.host ≠ ws →
      joinCode ≠ oldCode →
      (handleJoinGame st ws joinCode).1.clientToRoom ws = some joinCode ∧
      (handleJoinGame st ws joinCode).1.gameRooms oldCode = some oldRoom ∧
      (handleRoomDisconnection (handleJoinGame st ws joinCode).1 ws).1.gameRooms joinCode
         = none ∧
      (handleRoomDisconnection (handleJoinGame st ws joinCode).1 ws).1.gameRooms oldCode
         = some oldRoom) := by
  have hne : oldCode ≠ newCode := by
    intro h
    rw [h, hfresh] at hold
    exact Option.noConfusion hold
  have hcreate : handleCreateGame st ws newCode
      = ({ st with
            gameRooms := fun c => if c = newCode then
              some { code := newCode, host := ws, hostId := cd.id, guest := none,
                     guestId := none, status := .waiting } else st.gameRooms c,
            clientToRoom := fun w => if w = ws then some newCode else st.clientToRoom w },
         [.gameCreated ws newCode cd.id]) := by
    unfold handleCreateGame
    rw [hc]
  refine ⟨hne, ?_, ?_⟩
  · rw [hcreate]
    refine ⟨by simp, by simp [hne, hold], ?_, ?_, ?_, ?_⟩
    · unfold handleRoomDisconnection
      simp [hne]
    · unfold handleRoomDisconnection
      simp [hne, hold]
    · unfold handleCancelGame
      simp [hne]
    · unfold handleCancelGame
      simp [hne, hold]
  · intro joinCode jroom hjr hjw hjg hjh hjold
    have hjoin : handleJoinGame st ws joinCode
        = ({ st with
              gameRooms := fun c =>
                if c = joinCode then
                  some { jroom with
                           guest := some ws, guestId := some cd.id, status := .playing }
                else st.gameRooms c,
              clientToRoom := fun w => if w = ws then some joinCode else st.clientToRoom w },
           [.gameJoined ws joinCode cd.id jroom.hostId,
            .playerJoined jroom.host joinCode cd.id,
            .gameStateUpdate jroom.host,
            .gameStateUpdate ws]) := by
      unfold handleJoinGame
      rw [hc, hjr]
      dsimp only
      rw [if_neg (by simp [hjw, hjg])]
    rw [hjoin]
    refine ⟨by simp, by simp [Ne.symm hjold, hold], ?_, ?_⟩
    · unfold handleRoomDisconnection
      simp [hjh]
    · unfold handleRoomDisconnection
      simp [hjh, Ne.symm hjold, hold]

/-- C9 witness. -/
theorem create_overwrites_registry_spec_witness :
    (handleCreateGame wServer 1 "BBBBBB").1.clientToRoom 1 = some "BBBBBB" ∧
    (handleCreateGame wServer 1 "BBBBBB").1.gameRooms "AAAAAA" = some wRoom ∧
    (handleRoomDisconnection (handleCreateGame wServer 1 "BBBBBB").1 1).1.gameRooms "BBBBBB"
       = none ∧
    (handleRoomDisconnection (handleCreateGame wServer 1 "BBBBBB").1 1).1.gameRooms "AAAAAA"
       = some wRoom ∧
    (handleCancelGame (handleCreateGame wServer 1 "BBBBBB").1 1).1.gameRooms "BBBBBB" = none ∧
    (handleCancelGame (handleCreateGame wServer 1 "BBBBBB").1 1).1.gameRooms "AAAAAA"
       = some wRoom :=
  (create_overwrites_registry_spec wServer 1 wClient "AAAAAA" wRoom rfl rfl rfl
    "BBBBBB" rfl).2.1

end Tetris
